import Mathlib

/-!
# Corpus-based concatenative synthesis: the corpus store and its nearest-recording search

A shallow embedding of `Recording`, `Corpus` and `ofApp::audioOut` from
`FINAL/03-corpus-analysis-with-video-file/src/main.cpp`.

* `float` is IEEE-754 binary32.  Only `+`, `-`, `abs` and `<` occur in the
  source, and for these binary32 has an exact integer model: every finite
  binary32 value is an integer multiple of `2^-149`, so a finite value is kept
  as that integer, the exact result of `+`/`-` is an integer, and rounding
  (to nearest, ties to even, overflow to an infinity) is integer arithmetic.
  The two zeros are identified, and so are all NaN payloads; neither can be
  observed through `+`, `-`, `abs`, `<`.  `abs` is the `float` overload.
* `float *buf, int size` is a frame: the list of the `size` samples at `buf`.
* A `pkmMatrix` with one row is the list of its entries; reading an entry the
  matrix does not have, indexing `corpora` outside its bounds, and reading
  through `NULL` are faults.
* The analyzer (`pkmAudioFeatures`) is external: it is a parameter, a function
  of the configured segment size and the frame.
* `int` indices are unbounded integers (a corpus of `2^31` recordings is out
  of reach of the program).
-/

set_option exponentiation.threshold 512

namespace CorpusSynth

/-! ## binary32 -/

/-- A binary32 value.  `finite k` is the real number `k * 2^-149`. -/
inductive F32 where
  | finite (k : Int)
  | pinf
  | ninf
  | nan
deriving DecidableEq, Repr

namespace F32

/-- Binary digits of `m`, counted by repeated halving (at most `fuel` of them). -/
def bits : Nat → Nat → Nat
  | 0, _ => 0
  | fuel + 1, m => if m = 0 then 0 else bits fuel (m / 2) + 1

/-- The number of binary digits of `m` (`m` halvings always suffice). -/
def bitLength (m : Nat) : Nat := bits m m

/-- Rounding of a magnitude (in units of `2^-149`) to 24 significant bits, to
nearest, ties to even.  Magnitudes below `2^24` (subnormals and the first
binade of normals) are exact. -/
def roundNat (m : Nat) : Nat :=
  if m < 2 ^ 24 then m
  else
    let s := bitLength m - 24
    let q := m / 2 ^ s
    let r := m % 2 ^ s
    let half := 2 ^ (s - 1)
    (if half < r ∨ (r = half ∧ q % 2 = 1) then q + 1 else q) * 2 ^ s

/-- The binary32 result for the exact value `n * 2^-149`: rounded, and an
infinity when the rounded magnitude reaches `2^128`. -/
def ofInt (n : Int) : F32 :=
  let r := roundNat n.natAbs
  if 2 ^ 277 ≤ r then (if n < 0 then ninf else pinf)
  else finite (if n < 0 then -(r : Int) else (r : Int))

/-- The float `0`. -/
def zero : F32 := finite 0

/-- The float with the value of the natural number `n` (rounded). -/
def ofNat (n : Nat) : F32 := ofInt (Int.ofNat (n * 2 ^ 149))

/-- `FLT_MAX`, the largest finite binary32 value, `(2^24 - 1) * 2^104`. -/
def FLT_MAX : F32 := finite (Int.ofNat ((2 ^ 24 - 1) * 2 ^ 253))

/-- A value that a binary32 variable can hold: `finite k` needs `|k|` to have
at most 24 significant bits and to stay below `2^128` (in units of `2^-149`). -/
def representable : F32 → Bool
  | finite k => decide (roundNat k.natAbs = k.natAbs ∧ k.natAbs < 2 ^ 277)
  | _ => true

/-- Neither an infinity nor a NaN. -/
def isFinite : F32 → Bool
  | finite _ => true
  | _ => false

/-- Unary minus. -/
def neg : F32 → F32
  | finite k => finite (-k)
  | pinf => ninf
  | ninf => pinf
  | nan => nan

/-- Float addition, `a + b`. -/
def add : F32 → F32 → F32
  | nan, _ => nan
  | _, nan => nan
  | pinf, ninf => nan
  | ninf, pinf => nan
  | pinf, _ => pinf
  | _, pinf => pinf
  | ninf, _ => ninf
  | _, ninf => ninf
  | finite a, finite b => ofInt (a + b)

/-- Float subtraction, `a - b`. -/
def sub (a b : F32) : F32 := add a (neg b)

/-- The function `abs` on a float. -/
def abs : F32 → F32
  | finite k => finite (k.natAbs : Int)
  | pinf => pinf
  | ninf => pinf
  | nan => nan

/-- The comparison `a < b`: false as soon as one side is a NaN. -/
def lt : F32 → F32 → Bool
  | nan, _ => false
  | _, nan => false
  | finite a, finite b => decide (a < b)
  | finite _, pinf => true
  | finite _, ninf => false
  | pinf, _ => false
  | ninf, ninf => false
  | ninf, _ => true

/-- The comparison `a <= b`: false as soon as one side is a NaN. -/
def le : F32 → F32 → Bool
  | nan, _ => false
  | _, nan => false
  | finite a, finite b => decide (a ≤ b)
  | finite _, pinf => true
  | finite _, ninf => false
  | pinf, pinf => true
  | pinf, _ => false
  | ninf, _ => true

end F32

/-- The constant `HUGE_VALF`: positive infinity. -/
def HUGE_VALF : F32 := F32.pinf


/-! ## Faults and matrices -/

/-- What a run of the program can die of in the modelled code. -/
inductive Fault where
  | outOfBounds
  | nullDereference
deriving DecidableEq, Repr

deriving instance DecidableEq for Except

/-- The read `m[i]` of entry `i` of a one-row `pkmMatrix` with entries `m`. -/
def readAt (m : List F32) (i : Nat) : Except Fault F32 :=
  match m[i]? with
  | some x => pure x
  | none => throw Fault.outOfBounds

/-- The feature extractor `pkmAudioFeatures` is an external library whose code
is not in the repository; it is a parameter of the model.  An `Analyzer` gives,
for the segment size the analyzer was set up with and a frame, the value the
analyzer writes to entry `i` of the features matrix: a function, since the
extractor is required to be deterministic and free of hidden state. -/
abbrev Analyzer := Nat → List F32 → Nat → F32

/-- The two lines `pkmMatrix features(1, 36);
analyzer.compute36DimAudioFeaturesF(buffer.data, features.data);`: a matrix
of 36 entries, filled by the analyzer from the frame. -/
def compute36DimAudioFeaturesF (A : Analyzer) (segment_size : Nat) (buffer : List F32) :
    List F32 :=
  (List.range 36).map (A segment_size buffer)

/-! ## `Recording` and `Corpus` -/

/-- The class `Recording`: a sample buffer and its features. -/
structure Recording where
  buffer : List F32
  features : List F32
deriving DecidableEq, Repr

/-- The class `Corpus`.  `segment_size` is the state of the member `analyzer`
(what `analyzer.setup(44100, segment_size)` stored).  `best_idx` has no
initial value in the source: a fresh corpus holds an arbitrary one. -/
structure Corpus where
  best_idx : Int
  segment_size : Nat
  corpora : List Recording
deriving DecidableEq, Repr

/-- The read `corpora[idx]` for an `int` index. -/
def indexRecording (corpora : List Recording) (idx : Int) : Except Fault Recording :=
  if idx < 0 then throw Fault.outOfBounds
  else
    match corpora[idx.toNat]? with
    | some r => pure r
    | none => throw Fault.outOfBounds

namespace Corpus

/-- The method `Corpus::setup`. -/
def setup (c : Corpus) (segment_size : Nat) : Corpus :=
  { c with segment_size := segment_size }

/-- The inner loop of `getNearestRecording`, with `dim` for the bound `36`:
`this_distance = 0; for feature_i < dim: this_distance += abs(features[feature_i]
- rec_features[feature_i])`. -/
def thisDistance (dim : Nat) (features rec_features : List F32) : Except Fault F32 :=
  (List.range dim).foldlM
    (fun this_distance feature_i => do
      let a ← readAt features feature_i
      let b ← readAt rec_features feature_i
      pure (F32.add this_distance (F32.abs (F32.sub a b))))
    F32.zero

/-- One turn of the outer loop of `getNearestRecording` on the pair
`(best_distance, best_idx)`. -/
def scanStep (features : List F32) (corpora : List Recording) (st : F32 × Int)
    (recording_i : Nat) : Except Fault (F32 × Int) := do
  let r ← indexRecording corpora recording_i
  let this_distance ← thisDistance 36 features r.features
  if F32.lt this_distance st.1 then
    pure (this_distance, (recording_i : Int))
  else
    pure st

/-- The outer loop of `getNearestRecording`, from `best_distance = HUGE_VALF`
and the value `best_idx` holds: the final `(best_distance, best_idx)`. -/
def scan (features : List F32) (corpora : List Recording) (best_idx : Int) :
    Except Fault (F32 × Int) :=
  (List.range corpora.length).foldlM (scanStep features corpora) (HUGE_VALF, best_idx)

/-- The method `Corpus::getNearestRecording` on the frame `buf`: the returned
pointer (`none` for `NULL`, else the samples it points to) and the corpus
afterwards. -/
def getNearestRecording (A : Analyzer) (c : Corpus) (buf : List F32) :
    Except Fault (Option (List F32) × Corpus) := do
  let features := compute36DimAudioFeaturesF A c.segment_size buf
  let st ← scan features c.corpora c.best_idx
  let c1 : Corpus := { c with best_idx := st.2 }
  if c1.corpora.length ≠ 0 then
    let r ← indexRecording c1.corpora c1.best_idx
    pure (some r.buffer, c1)
  else
    pure (none, c1)

/-- The method `Corpus::getBestIdx`. -/
def getBestIdx (c : Corpus) : Int := c.best_idx

/-- The method `Corpus::addRecording` on the frame `buf`. -/
def addRecording (A : Analyzer) (c : Corpus) (buf : List F32) : Corpus :=
  let features := compute36DimAudioFeaturesF A c.segment_size buf
  let r : Recording := { buffer := buf, features := features }
  { c with corpora := c.corpora ++ [r] }

/-- The method `Corpus::size`. -/
def size (c : Corpus) : Nat := c.corpora.length

end Corpus

/-! ## `ofApp::audioOut` -/

/-- The members of `ofApp` that `audioOut` touches. -/
structure ofApp where
  buffer : List F32
  corpus : Corpus
deriving DecidableEq, Repr

/-- One turn of the loop of `audioOut`: `buf[i] = recording[i]`. -/
def copyStep (recording : Option (List F32)) (buf : List F32) (i : Nat) :
    Except Fault (List F32) :=
  match recording with
  | none => throw Fault.nullDereference
  | some r =>
    match r[i]? with
    | none => throw Fault.outOfBounds
    | some x => if i < buf.length then pure (buf.set i x) else throw Fault.outOfBounds

/-- The method `ofApp::audioOut(buf, size, ch)`: the output samples `buf`
afterwards, and the application state.  The frame handed to the corpus is the
first `size` samples of the member `buffer`. -/
def audioOut (A : Analyzer) (app : ofApp) (buf : List F32) (size : Nat) :
    Except Fault (List F32 × ofApp) := do
  if app.buffer.length < size then throw Fault.outOfBounds
  let res ← Corpus.getNearestRecording A app.corpus (app.buffer.take size)
  let out ← (List.range size).foldlM (copyStep res.1) buf
  pure (out, { app with corpus := res.2 })

/-! ## Concrete data for the examples -/

/-- An analyzer for the concrete examples: entry `i` of the features is sample
`i` of the frame (`0` past its end). -/
def sampleAnalyzer : Analyzer := fun _ frame i => frame.getD i F32.zero

/-- The frame whose samples are the given ones followed by zeros, 36 in all. -/
def frame36 (head : List F32) : List F32 :=
  head ++ List.replicate (36 - head.length) F32.zero

/-! ## Definitions used to state and prove the properties -/

/-- The value of `this_distance` after `n` turns of the inner loop, as a pure
function (entries that are missing read as NaN). -/
def l1 (q f : List F32) : Nat → F32
  | 0 => F32.zero
  | n + 1 => F32.add (l1 q f n) (F32.abs (F32.sub (q.getD n F32.nan) (f.getD n F32.nan)))

/-- The distance of the query features `q` to recording `j` of `corpora`. -/
def distAt (q : List F32) (corpora : List Recording) (j : Nat) : F32 :=
  match corpora[j]? with
  | some r => l1 q r.features 36
  | none => F32.nan

/-- The pair `(best_distance, best_idx)` after `n` turns of the outer loop, for
the distances `d`. -/
def pureScan (d : Nat → F32) (i0 : Int) : Nat → F32 × Int
  | 0 => (HUGE_VALF, i0)
  | n + 1 =>
    if F32.lt (d n) (pureScan d i0 n).1 then (d n, (n : Int)) else pureScan d i0 n

/-- What the outer loop has established after `n` turns: either no distance so
far was below `HUGE_VALF` and the pair is untouched, or the pair names a
recording `b` whose distance no recording so far beats and no earlier one
equals. -/
def ScanInv (d : Nat → F32) (i0 : Int) (n : Nat) (st : F32 × Int) : Prop :=
  (st = (HUGE_VALF, i0) ∧ ∀ j, j < n → F32.lt (d j) HUGE_VALF = false) ∨
  (∃ b, b < n ∧ st = (d b, (b : Int)) ∧ F32.lt (d b) HUGE_VALF = true ∧
    (∀ j, j < n → F32.lt (d j) (d b) = false) ∧
    (∀ j, j < b → F32.le (d j) (d b) = false))

/-- Every stored features matrix has its 36 entries. -/
def FeaturesSized (c : Corpus) : Prop :=
  ∀ r ∈ c.corpora, r.features.length = 36

/-- Every stored recording carries the features of its own buffer. -/
def Paired (A : Analyzer) (c : Corpus) : Prop :=
  ∀ r ∈ c.corpora, r.features = compute36DimAudioFeaturesF A c.segment_size r.buffer

/-- The corpus states that calls of `addRecording` and `getNearestRecording`
produce from an empty corpus. -/
inductive Reachable (A : Analyzer) : Corpus → Prop where
  | empty (best_idx : Int) (segment_size : Nat) :
      Reachable A { best_idx := best_idx, segment_size := segment_size, corpora := [] }
  | addRecording {c : Corpus} (buf : List F32) :
      Reachable A c → Reachable A (Corpus.addRecording A c buf)
  | getNearestRecording {c c1 : Corpus} (buf : List F32) (res : Option (List F32)) :
      Reachable A c → Corpus.getNearestRecording A c buf = .ok (res, c1) → Reachable A c1

/-- Two recordings, the second with a NaN in its features. -/
def corpusWithNaN : Corpus :=
  Corpus.addRecording sampleAnalyzer
    (Corpus.addRecording sampleAnalyzer { best_idx := 5, segment_size := 1024, corpora := [] }
      (frame36 []))
    (frame36 [F32.nan])

/-- One recording whose first feature is `FLT_MAX`, in a corpus whose `best_idx`
holds `best_idx`. -/
def corpusOfMax (best_idx : Int) : Corpus :=
  Corpus.addRecording sampleAnalyzer
    { best_idx := best_idx, segment_size := 1024, corpora := [] } (frame36 [F32.FLT_MAX])

/-- Two recordings with the same features (first feature `FLT_MAX`) and
different sample buffers, in a corpus whose `best_idx` holds `1`. -/
def corpusOfTwins : Corpus :=
  Corpus.addRecording sampleAnalyzer
    (Corpus.addRecording sampleAnalyzer { best_idx := 1, segment_size := 1024, corpora := [] }
      (frame36 [F32.FLT_MAX] ++ [F32.ofNat 1]))
    (frame36 [F32.FLT_MAX] ++ [F32.ofNat 2])

/-- One recording whose first feature is `+inf`, in a corpus whose `best_idx`
holds `7`. -/
def corpusOfInf : Corpus :=
  Corpus.addRecording sampleAnalyzer
    { best_idx := 7, segment_size := 1024, corpora := [] } (frame36 [F32.pinf])

/-- Three recordings with first features `1`, `5`, `5`, in a corpus whose
`best_idx` holds `-3`. -/
def corpusOfThree : Corpus :=
  Corpus.addRecording sampleAnalyzer
    (Corpus.addRecording sampleAnalyzer
      (Corpus.addRecording sampleAnalyzer
        { best_idx := -3, segment_size := 1024, corpora := [] } (frame36 [F32.ofNat 1]))
      (frame36 [F32.ofNat 5]))
    (frame36 [F32.ofNat 5] ++ [F32.ofNat 9])

/-! ## binary32: order and arithmetic facts -/

namespace F32

theorem lt_irrefl (a : F32) : lt a a = false := by
  cases a <;> simp [lt]

theorem lt_trans {a b c : F32} (h1 : lt a b = true) (h2 : lt b c = true) : lt a c = true := by
  cases a <;> cases b <;> cases c <;> simp [lt] at *
  all_goals omega

theorem lt_of_le_of_lt {a b c : F32} (h1 : le a b = true) (h2 : lt b c = true) :
    lt a c = true := by
  cases a <;> cases b <;> cases c <;> simp [lt, le] at *
  all_goals omega

theorem le_of_not_lt {a b : F32} (ha : a ≠ nan) (hb : b ≠ nan) (h : lt b a = false) :
    le a b = true := by
  cases a <;> cases b <;> simp [lt, le] at *
  all_goals omega

theorem lt_huge_of_lt {a b : F32} (h : lt a b = true) : lt a HUGE_VALF = true := by
  cases a <;> cases b <;> simp [lt, HUGE_VALF] at *

theorem not_lt_of_not_lt_huge {a : F32} (b : F32) (h : lt a HUGE_VALF = false) :
    lt a b = false := by
  cases a <;> cases b <;> simp [lt, HUGE_VALF] at *

theorem not_le_of_not_lt_huge {a b : F32} (h : lt a HUGE_VALF = false)
    (hb : lt b HUGE_VALF = true) : le a b = false := by
  cases a <;> cases b <;> simp [lt, le, HUGE_VALF] at *

theorem ne_nan_of_lt {a b : F32} (h : lt a b = true) : a ≠ nan := by
  cases a <;> cases b <;> simp [lt] at *

end F32

/-! ## binary32: zero and sign facts -/

namespace F32

theorem bits_zero (fuel : Nat) : bits fuel 0 = 0 := by
  cases fuel <;> simp [bits]

theorem pow_bits_le (fuel m : Nat) (hm : m ≠ 0) : 2 ^ bits fuel m ≤ 2 * m := by
  induction fuel generalizing m with
  | zero => simp [bits]; omega
  | succ fuel ih =>
    simp only [bits, if_neg hm]
    by_cases h2 : m / 2 = 0
    · rw [h2, bits_zero]
      simp
      omega
    · have := ih (m / 2) h2
      rw [Nat.pow_succ]
      omega

theorem pow_shift_le (m : Nat) (hm : 2 ^ 24 ≤ m) : 2 ^ (bitLength m - 24) ≤ m := by
  have hm0 : m ≠ 0 := by
    intro h
    rw [h] at hm
    exact absurd hm (by decide)
  have h := pow_bits_le m m hm0
  unfold bitLength
  by_cases hb : 24 ≤ bits m m
  · have hsplit : 2 ^ bits m m = 2 ^ (bits m m - 24) * 2 ^ 24 := by
      rw [← Nat.pow_add]
      congr 1
      omega
    rw [hsplit] at h
    have h24 : (2 : Nat) ^ 24 = 16777216 := by decide
    rw [h24] at h
    omega
  · have : bits m m - 24 = 0 := by omega
    rw [this]
    simp
    omega

theorem roundNat_eq_zero {m : Nat} (h : roundNat m = 0) : m = 0 := by
  unfold roundNat at h
  by_cases hm : m < 2 ^ 24
  · rw [if_pos hm] at h
    exact h
  · rw [if_neg hm] at h
    have hle := pow_shift_le m (Nat.le_of_not_lt hm)
    have hpos : 0 < 2 ^ (bitLength m - 24) := Nat.pow_pos (by decide)
    have hq : 0 < m / 2 ^ (bitLength m - 24) := Nat.div_pos hle hpos
    simp only [Nat.mul_eq_zero] at h
    rcases h with h | h
    · split at h <;> omega
    · omega

theorem ofInt_eq_zero {n : Int} (h : ofInt n = finite 0) : n = 0 := by
  unfold ofInt at h
  simp only at h
  split at h
  · split at h <;> exact absurd h (by simp)
  · have hr : roundNat n.natAbs = 0 := by
      injection h with h
      split at h <;> omega
    have := roundNat_eq_zero hr
    omega

theorem ofInt_zero : ofInt 0 = finite 0 := by decide

theorem sub_self_of_finite {a : F32} (h : isFinite a = true) : sub a a = zero := by
  cases a with
  | finite k =>
    show ofInt (k + -k) = finite 0
    rw [Int.add_right_neg]
    exact ofInt_zero
  | pinf => exact absurd h (by decide)
  | ninf => exact absurd h (by decide)
  | nan => exact absurd h (by decide)

theorem eq_of_sub_eq_zero {a b : F32} (h : sub a b = zero) : a = b := by
  cases a <;> cases b <;> simp [sub, add, neg, zero] at h
  rename_i ka kb
  have := ofInt_eq_zero h
  have hk : ka = kb := by omega
  rw [hk]

theorem abs_eq_zero {a : F32} (h : abs a = zero) : a = zero := by
  cases a <;> simp [abs, zero] at h
  rename_i k
  show finite k = finite 0
  rw [h]

theorem abs_not_neg (a : F32) : lt (abs a) zero = false := by
  cases a <;> simp [abs, lt, zero]

theorem ofInt_not_neg {n : Int} (hn : 0 ≤ n) : lt (ofInt n) zero = false := by
  unfold ofInt
  simp only
  have h0 : ¬ n < 0 := by omega
  simp only [if_neg h0]
  split
  · rfl
  · simp [lt, zero]

theorem add_not_neg {a b : F32} (ha : lt a zero = false) (hb : lt b zero = false) :
    lt (add a b) zero = false := by
  cases a <;> cases b <;> simp [add, lt, zero] at *
  rename_i ka kb
  exact ofInt_not_neg (by omega)

theorem add_eq_zero {a b : F32} (ha : lt a zero = false) (hb : lt b zero = false)
    (h : add a b = zero) : a = zero ∧ b = zero := by
  cases a <;> cases b <;> simp [add, lt, zero] at *
  rename_i ka kb
  have := ofInt_eq_zero h
  omega

theorem add_zero_zero : add zero zero = zero := by decide

theorem abs_zero : abs zero = zero := by decide

theorem eq_zero_of_not_neg {a : F32} (h0 : lt a zero = false) (h1 : lt zero a = false)
    (h2 : lt a HUGE_VALF = true) : a = zero := by
  cases a <;> simp [lt, zero, HUGE_VALF] at *
  omega

theorem zero_lt_huge : lt zero HUGE_VALF = true := by decide

/-- The rounding on known binary32 sums: `2^24 + 1` ties to the even `2^24`,
`(2^24 + 2) + 1` ties to the even `2^24 + 4`, `FLT_MAX` absorbs less than half
a unit in the last place and overflows at half a unit, and
`FLT_MAX - (-FLT_MAX)` is `+inf`. -/
theorem rounding_examples :
    add (ofNat 16777216) (ofNat 1) = ofNat 16777216 ∧
    add (ofNat 16777218) (ofNat 1) = ofNat 16777220 ∧
    add FLT_MAX (finite (Int.ofNat (2 ^ 252 - 1))) = FLT_MAX ∧
    add FLT_MAX (finite (Int.ofNat (2 ^ 252))) = pinf ∧
    sub FLT_MAX (neg FLT_MAX) = pinf ∧
    sub pinf pinf = nan ∧
    add (ofNat 1) (ofNat 2) = ofNat 3 := by
  decide!

end F32

/-! ## The inner loop: sign and zero of the distance -/

theorem l1_not_neg (q f : List F32) (n : Nat) : F32.lt (l1 q f n) F32.zero = false := by
  induction n with
  | zero => rfl
  | succ n ih => exact F32.add_not_neg ih (F32.abs_not_neg _)

theorem l1_self (q : List F32) (n : Nat)
    (hfin : ∀ k, k < n → F32.isFinite (q.getD k F32.nan) = true) : l1 q q n = F32.zero := by
  induction n with
  | zero => rfl
  | succ n ih =>
    unfold l1
    rw [ih (fun k hk => hfin k (Nat.lt_succ_of_lt hk)),
      F32.sub_self_of_finite (hfin n (Nat.lt_succ_self n)), F32.abs_zero, F32.add_zero_zero]

theorem l1_eq_zero (q f : List F32) (n : Nat) (h : l1 q f n = F32.zero) :
    ∀ k, k < n → q.getD k F32.nan = f.getD k F32.nan := by
  induction n with
  | zero => intro k hk; exact absurd hk (Nat.not_lt_zero k)
  | succ n ih =>
    unfold l1 at h
    have hz := F32.add_eq_zero (l1_not_neg q f n) (F32.abs_not_neg _) h
    intro k hk
    rcases Nat.lt_succ_iff_lt_or_eq.mp hk with hkn | hkn
    · exact ih hz.1 k hkn
    · rw [hkn]
      exact F32.eq_of_sub_eq_zero (F32.abs_eq_zero hz.2)

theorem features_eq_of_l1_zero (q f : List F32) (hq : q.length = 36) (hf : f.length = 36)
    (h : l1 q f 36 = F32.zero) : f = q := by
  have hall := l1_eq_zero q f 36 h
  apply List.ext_getElem (by omega)
  intro k h1 h2
  have hk := hall k (by omega)
  simp only [List.getD_eq_getElem?_getD, List.getElem?_eq_getElem h1,
    List.getElem?_eq_getElem h2, Option.getD_some] at hk
  exact hk.symm

/-! ## The outer loop as an arg-min -/

theorem pureScan_inv (d : Nat → F32) (i0 : Int) (n : Nat) :
    ScanInv d i0 n (pureScan d i0 n) := by
  induction n with
  | zero => exact Or.inl ⟨rfl, fun j hj => absurd hj (Nat.not_lt_zero j)⟩
  | succ n ih =>
    unfold pureScan
    by_cases hlt : F32.lt (d n) (pureScan d i0 n).1 = true
    · rw [if_pos hlt]
      have hhuge : F32.lt (d n) HUGE_VALF = true := F32.lt_huge_of_lt hlt
      refine Or.inr ⟨n, Nat.lt_succ_self n, rfl, hhuge, ?_, ?_⟩
      · intro j hj
        rcases Nat.lt_succ_iff_lt_or_eq.mp hj with hjn | hjn
        · rcases ih with ⟨_, hall⟩ | ⟨b, _, hst, _, hall, _⟩
          · exact F32.not_lt_of_not_lt_huge _ (hall j hjn)
          · rw [hst] at hlt
            cases h : F32.lt (d j) (d n) with
            | false => rfl
            | true =>
              have := F32.lt_trans h hlt
              rw [hall j hjn] at this
              exact absurd this (by decide)
        · rw [hjn]; exact F32.lt_irrefl _
      · intro j hjn
        rcases ih with ⟨_, hall⟩ | ⟨b, _, hst, _, hall, _⟩
        · exact F32.not_le_of_not_lt_huge (hall j hjn) hhuge
        · rw [hst] at hlt
          cases h : F32.le (d j) (d n) with
          | false => rfl
          | true =>
            have := F32.lt_of_le_of_lt h hlt
            rw [hall j hjn] at this
            exact absurd this (by decide)
    · rw [if_neg hlt]
      have hlt2 : F32.lt (d n) (pureScan d i0 n).1 = false := by
        cases h : F32.lt (d n) (pureScan d i0 n).1 with
        | false => rfl
        | true => exact absurd h hlt
      rcases ih with ⟨hst, hall⟩ | ⟨b, hb, hst, hhuge, hall, hfirst⟩
      · refine Or.inl ⟨hst, ?_⟩
        intro j hj
        rcases Nat.lt_succ_iff_lt_or_eq.mp hj with hjn | hjn
        · exact hall j hjn
        · rw [hjn]; rw [hst] at hlt2; exact hlt2
      · refine Or.inr ⟨b, Nat.lt_succ_of_lt hb, hst, hhuge, ?_, hfirst⟩
        intro j hj
        rcases Nat.lt_succ_iff_lt_or_eq.mp hj with hjn | hjn
        · exact hall j hjn
        · rw [hjn]; rw [hst] at hlt2; exact hlt2

/-! ## The loops of the source compute the pure functions -/

theorem readAt_of_lt {m : List F32} {i : Nat} (h : i < m.length) :
    readAt m i = .ok (m.getD i F32.nan) := by
  simp [readAt, List.getElem?_eq_getElem h]
  rfl

theorem thisDistance_eq (q f : List F32) (n : Nat) (hq : n ≤ q.length) (hf : n ≤ f.length) :
    Corpus.thisDistance n q f = .ok (l1 q f n) := by
  induction n with
  | zero => rfl
  | succ n ih =>
    have ih1 := ih (Nat.le_of_succ_le hq) (Nat.le_of_succ_le hf)
    unfold Corpus.thisDistance at ih1 ⊢
    rw [List.range_succ, List.foldlM_append, ih1]
    simp only [List.foldlM_cons, List.foldlM_nil]
    rw [readAt_of_lt (Nat.lt_of_succ_le hq), readAt_of_lt (Nat.lt_of_succ_le hf)]
    rfl

theorem compute36_length (A : Analyzer) (segment_size : Nat) (buf : List F32) :
    (compute36DimAudioFeaturesF A segment_size buf).length = 36 := by
  simp [compute36DimAudioFeaturesF]

theorem indexRecording_of_get {corpora : List Recording} {j : Nat} {r : Recording}
    (h : corpora[j]? = some r) : indexRecording corpora (j : Int) = .ok r := by
  unfold indexRecording
  have h0 : ¬ ((j : Int) < 0) := by omega
  rw [if_neg h0, Int.toNat_ofNat, h]
  rfl

theorem distAt_of_get {q : List F32} {corpora : List Recording} {j : Nat} {r : Recording}
    (h : corpora[j]? = some r) : distAt q corpora j = l1 q r.features 36 := by
  unfold distAt
  rw [h]

theorem thisDistance_of_get {q : List F32} {corpora : List Recording} {j : Nat}
    {r : Recording} (hq : q.length = 36) (hwf : ∀ r ∈ corpora, r.features.length = 36)
    (h : corpora[j]? = some r) :
    Corpus.thisDistance 36 q r.features = .ok (distAt q corpora j) := by
  have hr : r.features.length = 36 := hwf r (List.getElem?_mem h)
  rw [distAt_of_get h]
  exact thisDistance_eq q r.features 36 (by omega) (by omega)

theorem scanStep_eq (q : List F32) (corpora : List Recording) (st : F32 × Int) (j : Nat)
    (hq : q.length = 36) (hwf : ∀ r ∈ corpora, r.features.length = 36)
    (hj : j < corpora.length) :
    Corpus.scanStep q corpora st j =
      .ok (if F32.lt (distAt q corpora j) st.1 then (distAt q corpora j, (j : Int)) else st) := by
  obtain ⟨r, hr⟩ : ∃ r, corpora[j]? = some r := ⟨corpora[j], List.getElem?_eq_getElem hj⟩
  unfold Corpus.scanStep
  rw [indexRecording_of_get hr]
  simp only [Except.bind, bind]
  rw [thisDistance_of_get hq hwf hr]
  simp only [Except.bind, bind]
  split <;> rfl

theorem scan_prefix_eq (q : List F32) (corpora : List Recording) (i0 : Int)
    (hq : q.length = 36) (hwf : ∀ r ∈ corpora, r.features.length = 36) (n : Nat)
    (hn : n ≤ corpora.length) :
    (List.range n).foldlM (Corpus.scanStep q corpora) (HUGE_VALF, i0) =
      .ok (pureScan (distAt q corpora) i0 n) := by
  induction n with
  | zero => rfl
  | succ n ih =>
    rw [List.range_succ, List.foldlM_append, ih (Nat.le_of_succ_le hn)]
    simp only [List.foldlM_cons, List.foldlM_nil]
    rw [show (Except.ok (pureScan (distAt q corpora) i0 n) >>= fun b =>
          Corpus.scanStep q corpora b n >>= fun b => pure b)
        = (Corpus.scanStep q corpora (pureScan (distAt q corpora) i0 n) n >>= fun b => pure b)
        from rfl]
    rw [scanStep_eq q corpora _ n hq hwf (Nat.lt_of_succ_le hn)]
    rfl

theorem scan_eq (q : List F32) (corpora : List Recording) (i0 : Int)
    (hq : q.length = 36) (hwf : ∀ r ∈ corpora, r.features.length = 36) :
    Corpus.scan q corpora i0 = .ok (pureScan (distAt q corpora) i0 corpora.length) :=
  scan_prefix_eq q corpora i0 hq hwf corpora.length (Nat.le_refl _)

/-! ## `getNearestRecording` on a corpus whose features matrices are complete -/

theorem getNearestRecording_eq (A : Analyzer) (c : Corpus) (buf : List F32)
    (hwf : FeaturesSized c) :
    Corpus.getNearestRecording A c buf =
      (if c.corpora.length ≠ 0 then
        indexRecording c.corpora
            (pureScan (distAt (compute36DimAudioFeaturesF A c.segment_size buf) c.corpora)
              c.best_idx c.corpora.length).2 >>= fun r =>
          pure (some r.buffer,
            { c with best_idx :=
                (pureScan (distAt (compute36DimAudioFeaturesF A c.segment_size buf) c.corpora)
                  c.best_idx c.corpora.length).2 })
      else
        pure (none,
          { c with best_idx :=
              (pureScan (distAt (compute36DimAudioFeaturesF A c.segment_size buf) c.corpora)
                c.best_idx c.corpora.length).2 })) := by
  unfold Corpus.getNearestRecording
  dsimp only
  rw [scan_eq _ c.corpora c.best_idx (compute36_length A c.segment_size buf) hwf]
  rfl

/-- The search on a corpus in which some recording has a distance below
`HUGE_VALF`: the loop ends on a recording `b` of the corpus, its buffer is
returned, no recording beats its distance, and no earlier recording equals it. -/
theorem nearest_of_below (A : Analyzer) (c : Corpus) (buf : List F32) (hwf : FeaturesSized c)
    (j0 : Nat) (hj0 : j0 < c.corpora.length)
    (hbelow : F32.lt (distAt (compute36DimAudioFeaturesF A c.segment_size buf) c.corpora j0)
      HUGE_VALF = true) :
    ∃ (b : Nat) (rb : Recording),
      c.corpora[b]? = some rb ∧
      Corpus.scan (compute36DimAudioFeaturesF A c.segment_size buf) c.corpora c.best_idx =
        .ok (distAt (compute36DimAudioFeaturesF A c.segment_size buf) c.corpora b, (b : Int)) ∧
      Corpus.getNearestRecording A c buf = .ok (some rb.buffer, { c with best_idx := (b : Int) }) ∧
      F32.lt (distAt (compute36DimAudioFeaturesF A c.segment_size buf) c.corpora b)
        HUGE_VALF = true ∧
      (∀ j, j < c.corpora.length →
        F32.lt (distAt (compute36DimAudioFeaturesF A c.segment_size buf) c.corpora j)
          (distAt (compute36DimAudioFeaturesF A c.segment_size buf) c.corpora b) = false) ∧
      (∀ j, j < b →
        F32.le (distAt (compute36DimAudioFeaturesF A c.segment_size buf) c.corpora j)
          (distAt (compute36DimAudioFeaturesF A c.segment_size buf) c.corpora b) = false) := by
  have hq := compute36_length A c.segment_size buf
  have hinv := pureScan_inv (distAt (compute36DimAudioFeaturesF A c.segment_size buf) c.corpora)
    c.best_idx c.corpora.length
  rcases hinv with ⟨_, hall⟩ | ⟨b, hb, hst, hhuge, hall, hfirst⟩
  · rw [hall j0 hj0] at hbelow
    exact absurd hbelow (by decide)
  · have hget : c.corpora[b]? = some c.corpora[b] := List.getElem?_eq_getElem hb
    refine ⟨b, c.corpora[b], hget, ?_, ?_, hhuge, hall, hfirst⟩
    · rw [scan_eq _ c.corpora c.best_idx hq hwf, hst]
    · have hne : c.corpora.length ≠ 0 := by omega
      rw [getNearestRecording_eq A c buf hwf, if_pos hne, hst]
      show (indexRecording c.corpora (b : Int) >>= fun r => _) = _
      rw [indexRecording_of_get hget]
      rfl

/-- The search on a corpus in which some recording has a distance below
`HUGE_VALF`, in terms of the loops of the source: `best_idx` ends inside the
corpus, the best distance is not negative, and every recording before
`best_idx` has a distance that is not `<=` the best one (first wins). -/
theorem nearest_first_wins (A : Analyzer) (c : Corpus) (buf : List F32) (hwf : FeaturesSized c)
    (hbelow : ∃ (j : Nat) (rj : Recording) (dj : F32), c.corpora[j]? = some rj ∧
      Corpus.thisDistance 36 (compute36DimAudioFeaturesF A c.segment_size buf) rj.features
        = .ok dj ∧
      F32.lt dj HUGE_VALF = true) :
    ∃ (b : Nat) (rb : Recording) (db : F32),
      b < c.size ∧ c.corpora[b]? = some rb ∧
      Corpus.getNearestRecording A c buf =
        .ok (some rb.buffer, { c with best_idx := (b : Int) }) ∧
      Corpus.thisDistance 36 (compute36DimAudioFeaturesF A c.segment_size buf) rb.features
        = .ok db ∧
      F32.le F32.zero db = true ∧
      ∀ (j : Nat) (rj : Recording), j < b → c.corpora[j]? = some rj →
        ∃ dj : F32,
          Corpus.thisDistance 36 (compute36DimAudioFeaturesF A c.segment_size buf) rj.features
            = .ok dj ∧
          F32.le dj db = false := by
  have hq := compute36_length A c.segment_size buf
  obtain ⟨j0, r0, d0, hget0, hd0, hlt0⟩ := hbelow
  have hj0 : j0 < c.corpora.length := (List.getElem?_eq_some.mp hget0).1
  rw [thisDistance_of_get hq hwf hget0] at hd0
  have hd0' : distAt (compute36DimAudioFeaturesF A c.segment_size buf) c.corpora j0 = d0 := by
    injection hd0
  rw [← hd0'] at hlt0
  obtain ⟨b, rb, hgetb, _, hcall, hhuge, _, hfirst⟩ := nearest_of_below A c buf hwf j0 hj0 hlt0
  have hb : b < c.corpora.length := (List.getElem?_eq_some.mp hgetb).1
  refine ⟨b, rb, _, hb, hgetb, hcall, thisDistance_of_get hq hwf hgetb, ?_, ?_⟩
  · apply F32.le_of_not_lt (by decide) (F32.ne_nan_of_lt hhuge)
    rw [distAt_of_get hgetb]
    exact l1_not_neg _ _ _
  · intro j rj hjb hgetj
    exact ⟨_, thisDistance_of_get hq hwf hgetj, hfirst j hjb⟩

/-- The search on a corpus in which no recording has a distance below
`HUGE_VALF`: the loop leaves `best_idx` as it found it, and the corpus is
indexed with that value. -/
theorem nearest_of_none_below (A : Analyzer) (c : Corpus) (buf : List F32)
    (hwf : FeaturesSized c) (hne : c.corpora.length ≠ 0)
    (hnone : ∀ j, j < c.corpora.length →
      F32.lt (distAt (compute36DimAudioFeaturesF A c.segment_size buf) c.corpora j)
        HUGE_VALF = false) :
    Corpus.scan (compute36DimAudioFeaturesF A c.segment_size buf) c.corpora c.best_idx =
        .ok (HUGE_VALF, c.best_idx) ∧
    Corpus.getNearestRecording A c buf =
      (indexRecording c.corpora c.best_idx >>= fun r => pure (some r.buffer, c)) := by
  have hq := compute36_length A c.segment_size buf
  have hinv := pureScan_inv (distAt (compute36DimAudioFeaturesF A c.segment_size buf) c.corpora)
    c.best_idx c.corpora.length
  rcases hinv with ⟨hst, _⟩ | ⟨b, hb, _, hhuge, _, _⟩
  · refine ⟨?_, ?_⟩
    · rw [scan_eq _ c.corpora c.best_idx hq hwf, hst]
    · rw [getNearestRecording_eq A c buf hwf, if_pos hne, hst]
  · rw [hnone b hb] at hhuge
    exact absurd hhuge (by decide)

/-! ## `addRecording` -/

theorem addRecording_corpora (A : Analyzer) (c : Corpus) (buf : List F32) :
    (Corpus.addRecording A c buf).corpora =
      c.corpora ++ [{ buffer := buf,
                      features := compute36DimAudioFeaturesF A c.segment_size buf }] :=
  rfl

theorem addRecording_size_succ (A : Analyzer) (c : Corpus) (buf : List F32) :
    (Corpus.addRecording A c buf).size = c.size + 1 := by
  simp [Corpus.size, addRecording_corpora]

theorem addRecording_new (A : Analyzer) (c : Corpus) (buf : List F32) :
    (Corpus.addRecording A c buf).corpora[c.size]? =
      some { buffer := buf, features := compute36DimAudioFeaturesF A c.segment_size buf } := by
  rw [addRecording_corpora]
  exact List.getElem?_concat_length _ _

theorem addRecording_old (A : Analyzer) (c : Corpus) (buf : List F32) (j : Nat)
    (hj : j < c.size) : (Corpus.addRecording A c buf).corpora[j]? = c.corpora[j]? := by
  rw [addRecording_corpora]
  exact List.getElem?_append_left hj

theorem foldl_addRecording_size (A : Analyzer) (frames : List (List F32)) (c : Corpus) :
    (frames.foldl (Corpus.addRecording A) c).size = c.size + frames.length := by
  induction frames generalizing c with
  | nil => rfl
  | cons f fs ih =>
    rw [List.foldl_cons, ih, addRecording_size_succ, List.length_cons]
    omega

/-! ## Frame of `getNearestRecording`, and running it again -/

theorem getNearestRecording_frame {A : Analyzer} {c c1 : Corpus} {buf : List F32}
    {res : Option (List F32)} (h : Corpus.getNearestRecording A c buf = .ok (res, c1)) :
    ∃ st : F32 × Int,
      Corpus.scan (compute36DimAudioFeaturesF A c.segment_size buf) c.corpora c.best_idx
        = .ok st ∧
      c1 = { c with best_idx := st.2 } := by
  unfold Corpus.getNearestRecording at h
  dsimp only at h
  cases hs : Corpus.scan (compute36DimAudioFeaturesF A c.segment_size buf) c.corpora c.best_idx with
  | error e =>
    rw [hs] at h
    exact absurd h (by simp [bind, Except.bind])
  | ok st =>
    refine ⟨st, rfl, ?_⟩
    rw [hs] at h
    simp only [bind, Except.bind] at h
    split at h
    · cases hr : indexRecording c.corpora st.2 with
      | error e =>
        rw [hr] at h
        exact absurd h (by simp)
      | ok r =>
        rw [hr] at h
        simp only [pure, Except.pure, Except.ok.injEq, Prod.mk.injEq] at h
        exact h.2.symm
    · simp only [pure, Except.pure, Except.ok.injEq, Prod.mk.injEq] at h
      exact h.2.symm

theorem scanStep_unfold (q : List F32) (corpora : List Recording) (st : F32 × Int) (a : Nat) :
    Corpus.scanStep q corpora st a =
      (match indexRecording corpora (a : Int) with
       | .error e => .error e
       | .ok r =>
         match Corpus.thisDistance 36 q r.features with
         | .error e => .error e
         | .ok d => .ok (if F32.lt d st.1 = true then (d, (a : Int)) else st)) := by
  unfold Corpus.scanStep
  cases indexRecording corpora (a : Int) with
  | error e => rfl
  | ok r =>
    simp only [bind, Except.bind]
    cases Corpus.thisDistance 36 q r.features with
    | error e => rfl
    | ok d =>
      simp only
      split <;> rfl

theorem scan_fold_restart (q : List F32) (corpora : List Recording) (l : List Nat)
    (bd : F32) (i0 i1 : Int) (st : F32 × Int)
    (h : l.foldlM (Corpus.scanStep q corpora) (bd, i0) = .ok st) :
    ∃ bi : Int, l.foldlM (Corpus.scanStep q corpora) (bd, i1) = .ok (st.1, bi) ∧
      (bi = st.2 ∨ (st.2 = i0 ∧ bi = i1)) := by
  induction l generalizing bd i0 i1 with
  | nil =>
    simp only [List.foldlM_nil, pure, Except.pure, Except.ok.injEq] at h
    refine ⟨i1, ?_, Or.inr ⟨?_, rfl⟩⟩
    · rw [← h]; rfl
    · rw [← h]
  | cons a l ih =>
    rw [List.foldlM_cons, scanStep_unfold] at h ⊢
    cases hr : indexRecording corpora (a : Int) with
    | error e =>
      rw [hr] at h
      exact absurd h (by simp [bind, Except.bind])
    | ok r =>
      rw [hr] at h
      simp only at h ⊢
      cases hd : Corpus.thisDistance 36 q r.features with
      | error e =>
        rw [hd] at h
        exact absurd h (by simp [bind, Except.bind])
      | ok d =>
        rw [hd] at h
        simp only [bind, Except.bind] at h ⊢
        by_cases hlt : F32.lt d bd = true
        · rw [if_pos hlt] at h ⊢
          exact ⟨st.2, h, Or.inl rfl⟩
        · rw [if_neg hlt] at h ⊢
          exact ih bd i0 i1 h

theorem scan_restart {q : List F32} {corpora : List Recording} {i0 : Int} {st : F32 × Int}
    (h : Corpus.scan q corpora i0 = .ok st) : Corpus.scan q corpora st.2 = .ok st := by
  obtain ⟨bi, hbi, hcase⟩ := scan_fold_restart q corpora _ HUGE_VALF i0 st.2 st h
  unfold Corpus.scan
  rw [hbi]
  rcases hcase with h1 | ⟨_, h1⟩ <;> rw [h1]

/-! ## The invariant of the stored recordings -/

theorem paired_of_reachable {A : Analyzer} {c : Corpus} (h : Reachable A c) : Paired A c := by
  induction h with
  | empty best_idx segment_size =>
    intro r hr
    exact absurd hr (List.not_mem_nil r)
  | addRecording buf _ ih =>
    intro r hr
    rw [addRecording_corpora, List.mem_append, List.mem_singleton] at hr
    rcases hr with hr | hr
    · exact ih r hr
    · rw [hr]
      rfl
  | getNearestRecording buf res _ hcall ih =>
    obtain ⟨st, _, hc1⟩ := getNearestRecording_frame hcall
    subst hc1
    exact ih

theorem featuresSized_of_paired {A : Analyzer} {c : Corpus} (h : Paired A c) :
    FeaturesSized c := by
  intro r hr
  rw [h r hr]
  exact compute36_length A c.segment_size r.buffer

theorem getNearestRecording_empty_eq (A : Analyzer) (best_idx : Int) (segment_size : Nat)
    (buf : List F32) :
    Corpus.getNearestRecording A
        { best_idx := best_idx, segment_size := segment_size, corpora := [] } buf =
      .ok (none, { best_idx := best_idx, segment_size := segment_size, corpora := [] }) :=
  rfl

/-! ## `audioOut` -/

theorem set_take_drop (r buf : List F32) (n : Nat) (hr : n < r.length) (hb : n < buf.length) :
    (r.take n ++ buf.drop n).set n r[n] = r.take (n + 1) ++ buf.drop (n + 1) := by
  have hlen : (r.take n).length = n := by simp; omega
  rw [List.set_append_right _ _ (by omega), hlen, Nat.sub_self]
  rw [List.drop_eq_getElem_cons hb, List.set_cons_zero]
  have htake : List.take (n + 1) r = List.take n r ++ [r[n]] := by
    rw [List.take_succ, List.getElem?_eq_getElem hr]
    rfl
  rw [htake, List.append_assoc]
  rfl

/-- The loop of `audioOut` on a recording that is there: the first `n` output
samples become the first `n` samples of the recording. -/
theorem copy_loop (r buf : List F32) (n : Nat) (hr : n ≤ r.length) (hb : n ≤ buf.length) :
    (List.range n).foldlM (copyStep (some r)) buf = .ok (r.take n ++ buf.drop n) := by
  induction n with
  | zero => rfl
  | succ n ih =>
    rw [List.range_succ, List.foldlM_append, ih (Nat.le_of_succ_le hr) (Nat.le_of_succ_le hb)]
    simp only [List.foldlM_cons, List.foldlM_nil]
    have hr1 : n < r.length := Nat.lt_of_succ_le hr
    have hb1 : n < buf.length := Nat.lt_of_succ_le hb
    have hlen : n < (r.take n ++ buf.drop n).length := by
      simp
      omega
    have hstep : copyStep (some r) (r.take n ++ buf.drop n) n =
        .ok (r.take (n + 1) ++ buf.drop (n + 1)) := by
      unfold copyStep
      simp only [List.getElem?_eq_getElem hr1, if_pos hlen]
      rw [set_take_drop r buf n hr1 hb1]
      rfl
    show (copyStep (some r) (r.take n ++ buf.drop n) n >>= fun b => pure b) = _
    rw [hstep]
    rfl

/-- The method `audioOut` when the search returns a recording that has at least
`size` samples: `buf[i] = recording[i]` for every `i < size`. -/
theorem audioOut_copies (A : Analyzer) (app : ofApp) (buf r : List F32) (size : Nat)
    (c1 : Corpus) (hsize : size ≤ app.buffer.length)
    (hcall : Corpus.getNearestRecording A app.corpus (app.buffer.take size) = .ok (some r, c1))
    (hr : size ≤ r.length) (hb : size ≤ buf.length) :
    audioOut A app buf size = .ok (r.take size ++ buf.drop size, { app with corpus := c1 }) := by
  unfold audioOut
  have hnot : ¬ app.buffer.length < size := by omega
  simp only [if_neg hnot, hcall, bind, Except.bind, pure, Except.pure]
  rw [copy_loop r buf size hr hb]

/-- The method `audioOut` on an empty corpus, for `n + 1` output samples: the
first turn of the loop reads through `NULL` (unless the frame itself is out of
bounds). -/
theorem audioOut_empty (A : Analyzer) (buffer : List F32) (best_idx : Int)
    (segment_size : Nat) (buf : List F32) (n : Nat) :
    audioOut A
      { buffer := buffer,
        corpus := { best_idx := best_idx, segment_size := segment_size, corpora := [] } }
      buf (n + 1) =
      .error (if buffer.length < n + 1 then Fault.outOfBounds else Fault.nullDereference) := by
  unfold audioOut
  by_cases h : buffer.length < n + 1
  · simp only [if_pos h]
    rfl
  · simp only [if_neg h]
    rw [(getNearestRecording_empty_eq A best_idx segment_size (buffer.take (n + 1)))]
    rw [List.range_succ_eq_map]
    rfl

/-! ## The claims -/

/-- C1, as the code has it.  In a corpus of two recordings whose second has a
NaN feature, the query at distance 0 from the first makes the loop choose
index 0; the distance of the second is NaN, so `d(0) <= d(1)` is false.  And
in a corpus of one recording at distance `+inf` (an overflow of finite
features) with `best_idx` holding 3, no recording is selected at all. -/
theorem getNearestRecording_minimises_not_always :
    (Corpus.getNearestRecording sampleAnalyzer corpusWithNaN (frame36 []) =
        .ok (some (frame36 []), { corpusWithNaN with best_idx := 0 }) ∧
      Corpus.thisDistance 36 (compute36DimAudioFeaturesF sampleAnalyzer 1024 (frame36 []))
        (frame36 []) = .ok F32.zero ∧
      Corpus.thisDistance 36 (compute36DimAudioFeaturesF sampleAnalyzer 1024 (frame36 []))
        (frame36 [F32.nan]) = .ok F32.nan ∧
      corpusWithNaN.corpora.map Recording.features = [frame36 [], frame36 [F32.nan]] ∧
      F32.le F32.zero F32.nan = false) ∧
    ((corpusOfMax 3).size = 1 ∧
      Corpus.thisDistance 36
        (compute36DimAudioFeaturesF sampleAnalyzer 1024 (frame36 [F32.neg F32.FLT_MAX]))
        (frame36 [F32.FLT_MAX]) = .ok F32.pinf ∧
      Corpus.getNearestRecording sampleAnalyzer (corpusOfMax 3) (frame36 [F32.neg F32.FLT_MAX])
        = .error Fault.outOfBounds) := by
  decide!

/-- C1 (amended).  For a corpus whose features matrices have their 36 entries
and a frame for which some recording has a distance below `HUGE_VALF` (one
that is neither NaN nor `+inf`), `getNearestRecording` ends with `best_idx` on
a recording `b` of the corpus and returns that recording's buffer; the
distance `d(b)` is beaten by no recording (`d(j) < d(b)` is false for every
`j`), so `d(b) <= d(j)` for every `j` whose distance is not NaN.  The distance
is the sum of the absolute differences, accumulated from 0 in index order:
`[1,2,3]` against `[1,5,1]` in dimension 3 gives 5. -/
theorem getNearestRecording_minimises (A : Analyzer) (c : Corpus) (buf : List F32)
    (hwf : FeaturesSized c)
    (hbelow : ∃ (j : Nat) (rj : Recording) (dj : F32), c.corpora[j]? = some rj ∧
      Corpus.thisDistance 36 (compute36DimAudioFeaturesF A c.segment_size buf) rj.features
        = .ok dj ∧
      F32.lt dj HUGE_VALF = true) :
    (∃ (b : Nat) (rb : Recording) (db : F32),
      c.corpora[b]? = some rb ∧
      Corpus.getNearestRecording A c buf =
        .ok (some rb.buffer, { c with best_idx := (b : Int) }) ∧
      Corpus.getBestIdx { c with best_idx := (b : Int) } = (b : Int) ∧
      Corpus.thisDistance 36 (compute36DimAudioFeaturesF A c.segment_size buf) rb.features
        = .ok db ∧
      ∀ (j : Nat) (rj : Recording), c.corpora[j]? = some rj →
        ∃ dj : F32,
          Corpus.thisDistance 36 (compute36DimAudioFeaturesF A c.segment_size buf) rj.features
            = .ok dj ∧
          F32.lt dj db = false ∧ (dj ≠ F32.nan → F32.le db dj = true)) ∧
    Corpus.thisDistance 3 [F32.ofNat 1, F32.ofNat 2, F32.ofNat 3]
      [F32.ofNat 1, F32.ofNat 5, F32.ofNat 1] = .ok (F32.ofNat 5) := by
  refine ⟨?_, by decide!⟩
  have hq := compute36_length A c.segment_size buf
  obtain ⟨j0, r0, d0, hget0, hd0, hlt0⟩ := hbelow
  have hj0 : j0 < c.corpora.length := (List.getElem?_eq_some.mp hget0).1
  rw [thisDistance_of_get hq hwf hget0] at hd0
  have hd0' : distAt (compute36DimAudioFeaturesF A c.segment_size buf) c.corpora j0 = d0 := by
    injection hd0
  rw [← hd0'] at hlt0
  obtain ⟨b, rb, hgetb, _, hcall, hhuge, hall, _⟩ := nearest_of_below A c buf hwf j0 hj0 hlt0
  refine ⟨b, rb, _, hgetb, hcall, rfl, thisDistance_of_get hq hwf hgetb, ?_⟩
  intro j rj hgetj
  have hj : j < c.corpora.length := (List.getElem?_eq_some.mp hgetj).1
  refine ⟨_, thisDistance_of_get hq hwf hgetj, hall j hj, ?_⟩
  intro hnan
  exact F32.le_of_not_lt (F32.ne_nan_of_lt hhuge) hnan (hall j hj)

/-- C1 (amended) at a concrete input: three recordings with first features 1,
5, 5 and a query with first feature 4. -/
theorem getNearestRecording_minimises_witness :
    FeaturesSized corpusOfThree ∧
    (∃ (b : Nat) (rb : Recording) (db : F32),
      corpusOfThree.corpora[b]? = some rb ∧
      Corpus.getNearestRecording sampleAnalyzer corpusOfThree (frame36 [F32.ofNat 4]) =
        .ok (some rb.buffer, { corpusOfThree with best_idx := (b : Int) }) ∧
      Corpus.getBestIdx { corpusOfThree with best_idx := (b : Int) } = (b : Int) ∧
      Corpus.thisDistance 36
        (compute36DimAudioFeaturesF sampleAnalyzer corpusOfThree.segment_size
          (frame36 [F32.ofNat 4])) rb.features = .ok db ∧
      ∀ (j : Nat) (rj : Recording), corpusOfThree.corpora[j]? = some rj →
        ∃ dj : F32,
          Corpus.thisDistance 36
            (compute36DimAudioFeaturesF sampleAnalyzer corpusOfThree.segment_size
              (frame36 [F32.ofNat 4])) rj.features = .ok dj ∧
          F32.lt dj db = false ∧ (dj ≠ F32.nan → F32.le db dj = true)) ∧
    Corpus.thisDistance 3 [F32.ofNat 1, F32.ofNat 2, F32.ofNat 3]
      [F32.ofNat 1, F32.ofNat 5, F32.ofNat 1] = .ok (F32.ofNat 5) :=
  ⟨by unfold FeaturesSized; decide!,
   getNearestRecording_minimises sampleAnalyzer corpusOfThree (frame36 [F32.ofNat 4])
    (by unfold FeaturesSized; decide!)
    ⟨0, { buffer := frame36 [F32.ofNat 1], features := frame36 [F32.ofNat 1] }, F32.ofNat 3,
      by decide!, by decide!, by decide!⟩⟩

/-- C2 at its failing input: two recordings with the same features, both at
distance `+inf` (the minimum) from the query, and `best_idx` holding 1 before
the call.  The recording returned is the one at index 1, not the one at 0. -/
theorem getNearestRecording_stale_index_not_first :
    corpusOfTwins.corpora.map Recording.features =
      [frame36 [F32.FLT_MAX], frame36 [F32.FLT_MAX]] ∧
    corpusOfTwins.corpora.map Recording.buffer =
      [frame36 [F32.FLT_MAX] ++ [F32.ofNat 1], frame36 [F32.FLT_MAX] ++ [F32.ofNat 2]] ∧
    corpusOfTwins.best_idx = 1 ∧
    compute36DimAudioFeaturesF sampleAnalyzer 1024 (frame36 [F32.neg F32.FLT_MAX]) =
      frame36 [F32.neg F32.FLT_MAX] ∧
    Corpus.thisDistance 36 (frame36 [F32.neg F32.FLT_MAX]) (frame36 [F32.FLT_MAX]) =
      .ok F32.pinf ∧
    Corpus.scan (frame36 [F32.neg F32.FLT_MAX]) corpusOfTwins.corpora 1 = .ok (HUGE_VALF, 1) ∧
    Corpus.getNearestRecording sampleAnalyzer corpusOfTwins (frame36 [F32.neg F32.FLT_MAX])
      = .ok (some (frame36 [F32.FLT_MAX] ++ [F32.ofNat 2]), corpusOfTwins) := by
  decide!

/-- C3 at its failing input: finite features, one recording, and `best_idx`
holding 7 before the call.  The one distance overflows to `+inf`, which is not
below `HUGE_VALF`, so `best_idx` keeps the 7 and `corpora[7]` is out of bounds. -/
theorem getNearestRecording_stale_index_faults :
    F32.representable F32.FLT_MAX = true ∧ F32.representable (F32.neg F32.FLT_MAX) = true ∧
    F32.isFinite F32.FLT_MAX = true ∧ F32.isFinite (F32.neg F32.FLT_MAX) = true ∧
    (corpusOfMax 7).size = 1 ∧
    (corpusOfMax 7).corpora.map Recording.features = [frame36 [F32.FLT_MAX]] ∧
    compute36DimAudioFeaturesF sampleAnalyzer 1024 (frame36 [F32.neg F32.FLT_MAX]) =
      frame36 [F32.neg F32.FLT_MAX] ∧
    Corpus.thisDistance 36 (frame36 [F32.neg F32.FLT_MAX]) (frame36 [F32.FLT_MAX]) =
      .ok F32.pinf ∧
    Corpus.scan (frame36 [F32.neg F32.FLT_MAX]) (corpusOfMax 7).corpora 7 =
      .ok (HUGE_VALF, 7) ∧
    Corpus.getNearestRecording sampleAnalyzer (corpusOfMax 7) (frame36 [F32.neg F32.FLT_MAX])
      = .error Fault.outOfBounds := by
  decide!

/-- C4. On an empty corpus `getNearestRecording` returns `NULL` for every
analyzer and every frame, without a fault: the loop runs no turn (the pair
stays `(HUGE_VALF, best_idx)`), no recording is indexed, and the corpus is
left as it was. -/
theorem getNearestRecording_empty (A : Analyzer) (best_idx : Int) (segment_size : Nat)
    (buf : List F32) :
    Corpus.getNearestRecording A
        { best_idx := best_idx, segment_size := segment_size, corpora := [] } buf =
      .ok (none, { best_idx := best_idx, segment_size := segment_size, corpora := [] }) ∧
    Corpus.scan (compute36DimAudioFeaturesF A segment_size buf) [] best_idx =
      .ok (HUGE_VALF, best_idx) :=
  ⟨rfl, rfl⟩

/-- C5, as the code has it.  The one recording of the corpus has `+inf` as its
first feature and the query has exactly the stored features, yet the distance
is NaN (`inf - inf`), not 0: the loop ends with `best_distance = HUGE_VALF`,
`best_idx` keeps the 7 it held, and index 0 is not chosen. -/
theorem getNearestRecording_self_match_not_always :
    corpusOfInf.corpora.map Recording.features =
      [compute36DimAudioFeaturesF sampleAnalyzer 1024 (frame36 [F32.pinf])] ∧
    Corpus.thisDistance 36 (compute36DimAudioFeaturesF sampleAnalyzer 1024 (frame36 [F32.pinf]))
      (compute36DimAudioFeaturesF sampleAnalyzer 1024 (frame36 [F32.pinf])) = .ok F32.nan ∧
    Corpus.scan (compute36DimAudioFeaturesF sampleAnalyzer 1024 (frame36 [F32.pinf]))
      corpusOfInf.corpora corpusOfInf.best_idx = .ok (HUGE_VALF, 7) ∧
    Corpus.getNearestRecording sampleAnalyzer corpusOfInf (frame36 [F32.pinf])
      = .error Fault.outOfBounds := by
  decide!

/-- C5 (amended).  Exact self-match for finite features: let recording `i` of
a corpus (features matrices complete) have only finite features.  If the
query's features are exactly those and no other recording is at distance 0
from them, `getNearestRecording` sets `best_idx` to `i`, the loop ends with
best distance 0, and the buffer of recording `i` is returned.  So, when the
features of recording `i` are those of its own buffer and no other recording
has the same features, the query with that buffer returns recording `i`. -/
theorem getNearestRecording_self_match (A : Analyzer) (c : Corpus) (i : Nat) (ri : Recording)
    (hwf : FeaturesSized c) (hi : c.corpora[i]? = some ri)
    (hfin : ∀ x ∈ ri.features, F32.isFinite x = true) :
    (∀ buf : List F32, compute36DimAudioFeaturesF A c.segment_size buf = ri.features →
      (∀ (j : Nat) (rj : Recording), j ≠ i → c.corpora[j]? = some rj →
        Corpus.thisDistance 36 ri.features rj.features ≠ .ok F32.zero) →
      Corpus.getNearestRecording A c buf =
          .ok (some ri.buffer, { c with best_idx := (i : Int) }) ∧
        Corpus.scan ri.features c.corpora c.best_idx = .ok (F32.zero, (i : Int)) ∧
        Corpus.thisDistance 36 ri.features ri.features = .ok F32.zero) ∧
    (ri.features = compute36DimAudioFeaturesF A c.segment_size ri.buffer →
      (∀ (j : Nat) (rj : Recording), j ≠ i → c.corpora[j]? = some rj →
        rj.features ≠ ri.features) →
      Corpus.getNearestRecording A c ri.buffer =
        .ok (some ri.buffer, { c with best_idx := (i : Int) })) := by
  have hlen : ri.features.length = 36 := hwf ri (List.getElem?_mem hi)
  have hilt : i < c.corpora.length := (List.getElem?_eq_some.mp hi).1
  have hself : l1 ri.features ri.features 36 = F32.zero := by
    apply l1_self
    intro k hk
    have hk' : k < ri.features.length := by omega
    rw [List.getD_eq_getElem?_getD, List.getElem?_eq_getElem hk', Option.getD_some]
    exact hfin _ (List.getElem_mem hk')
  have part1 : ∀ buf : List F32, compute36DimAudioFeaturesF A c.segment_size buf = ri.features →
      (∀ (j : Nat) (rj : Recording), j ≠ i → c.corpora[j]? = some rj →
        Corpus.thisDistance 36 ri.features rj.features ≠ .ok F32.zero) →
      Corpus.getNearestRecording A c buf =
          .ok (some ri.buffer, { c with best_idx := (i : Int) }) ∧
        Corpus.scan ri.features c.corpora c.best_idx = .ok (F32.zero, (i : Int)) ∧
        Corpus.thisDistance 36 ri.features ri.features = .ok F32.zero := by
    intro buf hq huniq
    have hdi : distAt ri.features c.corpora i = F32.zero := by
      rw [distAt_of_get hi]
      exact hself
    have hbelow : F32.lt (distAt (compute36DimAudioFeaturesF A c.segment_size buf) c.corpora i)
        HUGE_VALF = true := by
      rw [hq, hdi]
      exact F32.zero_lt_huge
    obtain ⟨b, rb, hgetb, hscan, hcall, hhuge, hall, _⟩ :=
      nearest_of_below A c buf hwf i hilt hbelow
    rw [hq] at hscan hhuge hall
    have hnotneg : F32.lt (distAt ri.features c.corpora b) F32.zero = false := by
      rw [distAt_of_get hgetb]
      exact l1_not_neg _ _ _
    have hib := hall i hilt
    rw [hdi] at hib
    have hdb : distAt ri.features c.corpora b = F32.zero :=
      F32.eq_zero_of_not_neg hnotneg hib hhuge
    have hbi : b = i := by
      by_contra hne
      apply huniq b rb hne hgetb
      rw [thisDistance_of_get hlen hwf hgetb, hdb]
    subst hbi
    have hrb : rb = ri := by
      rw [hi] at hgetb
      injection hgetb with h
      exact h.symm
    subst hrb
    rw [hdb] at hscan
    refine ⟨hcall, hscan, ?_⟩
    rw [thisDistance_of_get hlen hwf hi, hdi]
  refine ⟨part1, ?_⟩
  intro hpair huniq
  refine (part1 ri.buffer hpair.symm ?_).1
  intro j rj hne hgetj hzero
  have hrj : rj.features.length = 36 := hwf rj (List.getElem?_mem hgetj)
  rw [thisDistance_eq ri.features rj.features 36 (by omega) (by omega)] at hzero
  have hz : l1 ri.features rj.features 36 = F32.zero := by
    injection hzero
  exact huniq j rj hne hgetj (features_eq_of_l1_zero ri.features rj.features hlen hrj hz)

/-- C5 (amended) at a concrete input: recording 0 of the three recordings
(first feature 1; the others have 5), queried with its own buffer. -/
theorem getNearestRecording_self_match_witness :
    FeaturesSized corpusOfThree ∧
    Corpus.getNearestRecording sampleAnalyzer corpusOfThree (frame36 [F32.ofNat 1]) =
      .ok (some (frame36 [F32.ofNat 1]), { corpusOfThree with best_idx := 0 }) :=
  ⟨by unfold FeaturesSized; decide!,
   (getNearestRecording_self_match sampleAnalyzer corpusOfThree 0
      { buffer := frame36 [F32.ofNat 1], features := frame36 [F32.ofNat 1] }
      (by unfold FeaturesSized; decide!) (by decide!) (by decide!)).2 (by decide!)
      (by
        intro j rj hne hget
        have hlt : j < 3 := (List.getElem?_eq_some.mp hget).1
        have h1 : corpusOfThree.corpora[1]? =
            some { buffer := frame36 [F32.ofNat 5], features := frame36 [F32.ofNat 5] } := by
          decide!
        have h2 : corpusOfThree.corpora[2]? =
            some { buffer := frame36 [F32.ofNat 5] ++ [F32.ofNat 9],
                   features := frame36 [F32.ofNat 5] } := by
          decide!
        have hj : j = 1 ∨ j = 2 := by omega
        rcases hj with hj | hj
        · subst hj
          rw [h1] at hget
          injection hget with hget
          subst hget
          decide!
        · subst hj
          rw [h2] at hget
          injection hget with hget
          subst hget
          decide!)⟩

/-- C6. Running `getNearestRecording` again on the same frame: whenever a
call returns, the next call with the same frame returns the same pointer and
leaves the same corpus (so `getBestIdx()` is the same), both loops end with the
same best distance, and the call changed neither the stored recordings nor the
size nor the analyzer. -/
theorem getNearestRecording_idempotent (A : Analyzer) (c c1 : Corpus) (buf : List F32)
    (res : Option (List F32)) (h : Corpus.getNearestRecording A c buf = .ok (res, c1)) :
    Corpus.getNearestRecording A c1 buf = .ok (res, c1) ∧
    c1.corpora = c.corpora ∧ c1.size = c.size ∧ c1.segment_size = c.segment_size ∧
    ∃ best_distance : F32,
      Corpus.scan (compute36DimAudioFeaturesF A c.segment_size buf) c.corpora c.best_idx
        = .ok (best_distance, c1.getBestIdx) ∧
      Corpus.scan (compute36DimAudioFeaturesF A c1.segment_size buf) c1.corpora c1.best_idx
        = .ok (best_distance, c1.getBestIdx) := by
  obtain ⟨st, hscan, hc1⟩ := getNearestRecording_frame h
  have hre := scan_restart hscan
  subst hc1
  refine ⟨?_, rfl, rfl, rfl, st.1, hscan, hre⟩
  unfold Corpus.getNearestRecording at h ⊢
  dsimp only at h ⊢
  rw [hscan] at h
  rw [hre]
  exact h

/-- C6 at a concrete input: the three recordings, queried twice with first
feature 4. -/
theorem getNearestRecording_idempotent_witness :
    Corpus.getNearestRecording sampleAnalyzer corpusOfThree (frame36 [F32.ofNat 4]) =
      .ok (some (frame36 [F32.ofNat 5]), { corpusOfThree with best_idx := 1 }) ∧
    Corpus.getNearestRecording sampleAnalyzer { corpusOfThree with best_idx := 1 }
        (frame36 [F32.ofNat 4]) =
      .ok (some (frame36 [F32.ofNat 5]), { corpusOfThree with best_idx := 1 }) :=
  ⟨by decide!,
   (getNearestRecording_idempotent sampleAnalyzer corpusOfThree
      { corpusOfThree with best_idx := 1 } (frame36 [F32.ofNat 4])
      (some (frame36 [F32.ofNat 5])) (by decide!)).1⟩

/-- C7. Append and size: from an empty corpus, `k` calls of `addRecording`
give `size() = k`; each call raises `size()` by one, puts the new recording
(the frame's samples, unchanged, with their features) at the index that was
the size, and leaves every earlier recording where and as it was; so after a
sequence of calls the last recording holds the samples of the last frame. -/
theorem addRecording_append_size (A : Analyzer) (best_idx : Int) (segment_size : Nat) :
    (∀ frames : List (List F32),
      (frames.foldl (Corpus.addRecording A)
        { best_idx := best_idx, segment_size := segment_size, corpora := [] }).size
        = frames.length) ∧
    (∀ (c : Corpus) (buf : List F32),
      (Corpus.addRecording A c buf).size = c.size + 1 ∧
      (Corpus.addRecording A c buf).corpora[c.size]? =
        some { buffer := buf, features := compute36DimAudioFeaturesF A c.segment_size buf } ∧
      (∀ j, j < c.size → (Corpus.addRecording A c buf).corpora[j]? = c.corpora[j]?)) ∧
    (∀ (frames : List (List F32)) (buf : List F32),
      ((frames ++ [buf]).foldl (Corpus.addRecording A)
          { best_idx := best_idx, segment_size := segment_size, corpora := [] }).corpora[frames.length]?
        = some { buffer := buf, features := compute36DimAudioFeaturesF A segment_size buf }) := by
  refine ⟨?_, ?_, ?_⟩
  · intro frames
    rw [foldl_addRecording_size]
    simp [Corpus.size]
  · intro c buf
    exact ⟨addRecording_size_succ A c buf, addRecording_new A c buf, addRecording_old A c buf⟩
  · intro frames buf
    rw [List.foldl_append, List.foldl_cons, List.foldl_nil]
    have hsize := foldl_addRecording_size A frames
      { best_idx := best_idx, segment_size := segment_size, corpora := [] }
    have hseg : ∀ (fs : List (List F32)) (c : Corpus),
        (fs.foldl (Corpus.addRecording A) c).segment_size = c.segment_size := by
      intro fs
      induction fs with
      | nil => intro c; rfl
      | cons f fs ih => intro c; rw [List.foldl_cons, ih]; rfl
    have hnew := addRecording_new A (frames.foldl (Corpus.addRecording A)
      { best_idx := best_idx, segment_size := segment_size, corpora := [] }) buf
    rw [hsize, hseg] at hnew
    simpa [Corpus.size] using hnew

/-- C8. The invariant of the stored recordings: in every corpus reached from
an empty one by calls of `addRecording` and `getNearestRecording`, each stored
recording has the features the analyzer computes from its own buffer, 36 of
them; and neither method touches a recording that is already stored
(`addRecording` keeps every entry below the old size, `getNearestRecording`
keeps the whole list). -/
theorem recording_invariant (A : Analyzer) (c : Corpus) (h : Reachable A c) :
    (∀ r ∈ c.corpora,
      r.features = compute36DimAudioFeaturesF A c.segment_size r.buffer ∧
      r.features.length = 36) ∧
    (∀ (buf : List F32) (j : Nat), j < c.size →
      (Corpus.addRecording A c buf).corpora[j]? = c.corpora[j]?) ∧
    (∀ (buf : List F32) (res : Option (List F32)) (c1 : Corpus),
      Corpus.getNearestRecording A c buf = .ok (res, c1) → c1.corpora = c.corpora) := by
  have hp := paired_of_reachable h
  refine ⟨fun r hr => ⟨hp r hr, featuresSized_of_paired hp r hr⟩, ?_, ?_⟩
  · intro buf j hj
    exact addRecording_old A c buf j hj
  · intro buf res c1 hcall
    obtain ⟨st, _, hc1⟩ := getNearestRecording_frame hcall
    rw [hc1]

/-- C8 at a concrete input: the corpus reached by three calls of
`addRecording` and one of `getNearestRecording`. -/
theorem recording_invariant_witness :
    Reachable sampleAnalyzer { corpusOfThree with best_idx := 1 } ∧
    ∀ r ∈ ({ corpusOfThree with best_idx := 1 } : Corpus).corpora,
      r.features = compute36DimAudioFeaturesF sampleAnalyzer 1024 r.buffer ∧
      r.features.length = 36 :=
  have hthree : Reachable sampleAnalyzer corpusOfThree :=
    Reachable.addRecording _ (Reachable.addRecording _ (Reachable.addRecording _
      (Reachable.empty (-3) 1024)))
  have hreach : Reachable sampleAnalyzer { corpusOfThree with best_idx := 1 } :=
    Reachable.getNearestRecording (frame36 [F32.ofNat 4]) (some (frame36 [F32.ofNat 5]))
      hthree (by decide!)
  ⟨hreach, (recording_invariant sampleAnalyzer { corpusOfThree with best_idx := 1 } hreach).1⟩

/-- C9, as the code has it: `addRecording` compares no lengths.  A frame of 3
samples is stored in a corpus set up for segments of 2 samples. -/
theorem addRecording_wrong_length_stored :
    ([F32.zero, F32.zero, F32.zero] : List F32).length ≠ 2 ∧
    (Corpus.addRecording sampleAnalyzer
      (Corpus.setup { best_idx := 0, segment_size := 2048, corpora := [] } 2)
      [F32.zero, F32.zero, F32.zero]).size = 1 ∧
    (Corpus.addRecording sampleAnalyzer
      (Corpus.setup { best_idx := 0, segment_size := 2048, corpora := [] } 2)
      [F32.zero, F32.zero, F32.zero]).corpora[0]? =
        some { buffer := [F32.zero, F32.zero, F32.zero],
               features := List.replicate 36 F32.zero } := by
  decide

/-- C9 (amended). `addRecording` accepts a frame of any length, whatever
segment size `setup` configured: the corpus is extended by one recording that
holds the frame. -/
theorem addRecording_any_length (A : Analyzer) (c : Corpus) (segment_size : Nat)
    (buf : List F32) :
    (Corpus.addRecording A (Corpus.setup c segment_size) buf).size = c.size + 1 ∧
    (Corpus.addRecording A (Corpus.setup c segment_size) buf).corpora[c.size]? =
      some { buffer := buf, features := compute36DimAudioFeaturesF A segment_size buf } :=
  ⟨addRecording_size_succ A (Corpus.setup c segment_size) buf,
   addRecording_new A (Corpus.setup c segment_size) buf⟩

/-- C10 at its failing input: with an empty corpus, `audioOut` for a frame of
1024 output samples reads through the `NULL` that `getNearestRecording`
returned; and so it does for every analyzer, every state of the members and
every positive number of output samples that the member `buffer` holds. -/
theorem audioOut_empty_corpus_faults :
    audioOut sampleAnalyzer
      { buffer := List.replicate 1024 F32.zero,
        corpus := { best_idx := 0, segment_size := 1024, corpora := [] } }
      (List.replicate 1024 F32.zero) 1024 = .error Fault.nullDereference ∧
    ∀ (A : Analyzer) (buffer : List F32) (best_idx : Int) (segment_size : Nat)
      (buf : List F32) (n : Nat), n + 1 ≤ buffer.length →
      audioOut A
        { buffer := buffer,
          corpus := { best_idx := best_idx, segment_size := segment_size, corpora := [] } }
        buf (n + 1) = .error Fault.nullDereference := by
  refine ⟨by decide!, ?_⟩
  intro A buffer best_idx segment_size buf n hn
  have hnot : ¬ buffer.length < n + 1 := by omega
  rw [audioOut_empty, if_neg hnot]

end CorpusSynth
